import Mathlib

set_option maxRecDepth 10000

/-!
Verification of the text knowledge-graph extraction core of the
`document_tool` repository (`src/pipelines/text_pipeline.py`).

The Python code is shallowly embedded: Python dicts become association
lists (`List (String × _)`) with insertion-order semantics, Python sets
become duplicate-free lists, floats become `Rat`, and the external LLM
call becomes an explicit oracle parameter returning `Except`.  String
similarity (`difflib.SequenceMatcher.ratio`) is embedded faithfully,
including its recursive matching-block decomposition; the junk/autojunk
machinery degenerates as in the source (no `isjunk` argument is ever
passed, and autojunk only fires for strings of length at least 200).
-/

namespace TextPipeline

/-- `EntityAttribute` pydantic model: a named attribute of an entity. -/
structure EntityAttribute where
  name : String
  value : String
deriving DecidableEq, Repr

/-- `Entity` pydantic model: an entity extracted from text. -/
structure Entity where
  name : String
  type : String
  description : Option String := none
  attributes : List EntityAttribute := []
deriving DecidableEq, Repr

/-- `Relation` pydantic model: a relation between two entities
(`confidence` is a float in Python; modelled as `Rat`). -/
structure Relation where
  source_entity : String
  target_entity : String
  relation_type : String
  description : Option String := none
  confidence : Rat := 1
deriving DecidableEq, Repr

/-- `ChunkAnalysisResult` pydantic model: per-chunk extraction output. -/
structure ChunkAnalysisResult where
  chunk_idx : Nat
  page_range : String
  entities : List Entity := []
  relations : List Relation := []
deriving DecidableEq, Repr

/-- `DocumentAnalysisSchema` pydantic model: the structured LLM response. -/
structure DocumentAnalysisSchema where
  entities : List Entity := []
  relations : List Relation := []
deriving DecidableEq, Repr

/-! ## Python dict and set primitives

A Python dict is an association list ordered by first insertion of each
key; assigning to an existing key updates the value in place, keeping
the key position.  A Python set (as used for attribute-name and page
collections) is a duplicate-free list. -/

/-- Python `str.lower()` character by character (ASCII case mapping,
which covers every string in this development; `String.toLower` itself
is not kernel-reducible). -/
def pyLower (s : String) : String :=
  String.mk (s.toList.map Char.toLower)

/-- Python `str.strip()` over the whitespace characters of
`Char.isWhitespace`. -/
def pyStrip (s : String) : String :=
  String.mk
    (((s.toList.dropWhile Char.isWhitespace).reverse.dropWhile
        Char.isWhitespace).reverse)

/-- Python `str.replace(' ', '_')` (the only `replace` call in the
source has a single-character pattern). -/
def pyUnderscore (s : String) : String :=
  String.mk (s.toList.map (fun c => if c = ' ' then '_' else c))

/-- `d[k] = v` on a Python dict: update in place if the key exists,
else append at the end. -/
def dictInsert (d : List (String × α)) (k : String) (v : α) :
    List (String × α) :=
  if d.any (fun p => p.1 == k) then
    d.map (fun p => if p.1 == k then (k, v) else p)
  else
    d ++ [(k, v)]

/-- `k in d` on a Python dict. -/
def dictContains (d : List (String × α)) (k : String) : Bool :=
  d.any (fun p => p.1 == k)

/-! ## difflib.SequenceMatcher

Embedding of the CPython `difflib.SequenceMatcher` ratio computation for
`SequenceMatcher(None, a, b)`: `isjunk` is `None`, so the junk set is
empty and the junk-extension loops of `find_longest_match` never fire;
`autojunk` only filters `b2j` when `len(b) >= 200`. -/

/-- Build the `b2j` map: for each character of `b`, the ascending list of
its indices (Python `__chain_b` before junk purging). -/
def chainB (b : List Char) : List (Char × List Nat) :=
  (b.enum).foldl
    (fun m p =>
      if m.any (fun q => q.1 == p.2) then
        m.map (fun q => if q.1 == p.2 then (q.1, q.2 ++ [p.1]) else q)
      else
        m ++ [(p.2, [p.1])])
    []

/-- `b2j` after the autojunk purge: elements occurring more than
`len(b) // 100 + 1` times are dropped when `len(b) >= 200`. -/
def b2jOf (b : List Char) : List (Char × List Nat) :=
  let m := chainB b
  if 200 ≤ b.length then
    m.filter (fun q => ¬ (b.length / 100 + 1 < q.2.length))
  else
    m

/-- Indices of character `c` in `b2j` (Python `b2j.get(a[i], nothing)`). -/
def b2jGet (m : List (Char × List Nat)) (c : Char) : List Nat :=
  match m.find? (fun q => q.1 == c) with
  | some q => q.2
  | none => []

/-- `newj2len[j] = k` on the Nat-keyed `j2len` dict of
`find_longest_match`. -/
def dictInsertNat (d : List (Nat × Nat)) (j k : Nat) : List (Nat × Nat) :=
  if d.any (fun q => q.1 == j) then
    d.map (fun q => if q.1 == j then (j, k) else q)
  else
    d ++ [(j, k)]

/-- Inner loop of `find_longest_match` over the ascending index list of
`b2j[a[i]]`, threading `newj2len` and the best block; `j < blo` is
skipped, `j >= bhi` breaks. -/
def flmInner (blo bhi i : Nat) (j2len : List (Nat × Nat)) :
    List Nat → List (Nat × Nat) → (Nat × Nat × Nat) →
    (List (Nat × Nat) × (Nat × Nat × Nat))
  | [], newj2len, best => (newj2len, best)
  | j :: js, newj2len, best =>
    if j < blo then
      flmInner blo bhi i j2len js newj2len best
    else if bhi ≤ j then
      (newj2len, best)
    else
      let prev : Nat :=
        if j = 0 then 0
        else match j2len.find? (fun q => q.1 == j - 1) with
          | some q => q.2
          | none => 0
      let k := prev + 1
      let newj2len := dictInsertNat newj2len j k
      let best :=
        if best.2.2 < k then (i + 1 - k, j + 1 - k, k) else best
      flmInner blo bhi i j2len js newj2len best

/-- Outer loop of `find_longest_match` over `i` in `[alo, ahi)`;
`count` is the remaining number of iterations. -/
def flmOuter (a : List Char) (b2j : List (Char × List Nat))
    (blo bhi : Nat) :
    Nat → Nat → List (Nat × Nat) → (Nat × Nat × Nat) → (Nat × Nat × Nat)
  | 0, _, _, best => best
  | count + 1, i, j2len, best =>
    let (newj2len, best) :=
      flmInner blo bhi i j2len (b2jGet b2j (a.getD i ' ')) [] best
    flmOuter a b2j blo bhi count (i + 1) newj2len best

/-- Leftward non-junk extension of the best block (the junk set is
empty, so the `isbjunk` tests in the source are identically false). -/
def extendLeft (a b : List Char) (alo blo : Nat) :
    Nat → Nat → Nat → (Nat × Nat × Nat)
  | 0, bestj, bestsize => (0, bestj, bestsize)
  | besti + 1, bestj, bestsize =>
    if alo ≤ besti ∧ blo < bestj ∧
        a.getD besti ' ' = b.getD (bestj - 1) ' ' then
      extendLeft a b alo blo besti (bestj - 1) (bestsize + 1)
    else
      (besti + 1, bestj, bestsize)

/-- Rightward non-junk extension of the best block; `fuel` bounds the
number of iterations (at most `ahi`). -/
def extendRight (a b : List Char) (ahi bhi besti bestj : Nat) :
    Nat → Nat → Nat
  | 0, bestsize => bestsize
  | fuel + 1, bestsize =>
    if besti + bestsize < ahi ∧ bestj + bestsize < bhi ∧
        a.getD (besti + bestsize) ' ' = b.getD (bestj + bestsize) ' ' then
      extendRight a b ahi bhi besti bestj fuel (bestsize + 1)
    else
      bestsize

/-- `find_longest_match(alo, ahi, blo, bhi)` with an empty junk set. -/
def findLongestMatch (a b : List Char) (b2j : List (Char × List Nat))
    (alo ahi blo bhi : Nat) : Nat × Nat × Nat :=
  let best := flmOuter a b2j blo bhi (ahi - alo) alo [] (alo, blo, 0)
  let (besti, bestj, bestsize) := best
  let (besti, bestj, bestsize) :=
    extendLeft a b alo blo besti bestj bestsize
  let bestsize := extendRight a b ahi bhi besti bestj ahi bestsize
  (besti, bestj, bestsize)

/-- Total size of all matching blocks on `a[alo:ahi] × b[blo:bhi]`
(the sum that `ratio` takes over `get_matching_blocks`; the fuel
`(ahi - alo) + (bhi - blo) + 1` always suffices because each recursive
call strictly shrinks the combined interval width). -/
def matchingSum (a b : List Char) (b2j : List (Char × List Nat)) :
    Nat → Nat → Nat → Nat → Nat → Nat
  | 0, _, _, _, _ => 0
  | fuel + 1, alo, ahi, blo, bhi =>
    let (i, j, k) := findLongestMatch a b b2j alo ahi blo bhi
    if k = 0 then 0
    else
      matchingSum a b b2j fuel alo i blo j + k +
        matchingSum a b b2j fuel (i + k) ahi (j + k) bhi

/-- `SequenceMatcher(None, a, b).ratio()` as an exact rational,
`2 * matches / total` (via `mkRat`, which the kernel can evaluate).
Python raises `ZeroDivisionError` when both strings are empty; that
case yields `0` here and is never reached by the claims. -/
def smRatio (a b : List Char) : Rat :=
  let total := a.length + b.length
  let m :=
    matchingSum a b (b2jOf b) (a.length + b.length + 1) 0 a.length 0
      b.length
  mkRat (2 * m) total

/-- `calculate_similarity(str1, str2)`: `SequenceMatcher` ratio of the
lower-cased strings (Python `str.lower` restricted to ASCII, which
covers every string occurring in this development). -/
def calculate_similarity (str1 str2 : String) : Rat :=
  smRatio (pyLower str1).toList (pyLower str2).toList

/-! ## ChunkGrouper

`ChunkGrouper.group_by_dynamic_size` consumes MinerU content items.  A
content item is modelled by its fields relevant to the grouper: the
text (`item.get('text', '')`), the optional page index
(`item.get('page_idx')`), and `pos`, the second sort-key component
`item.get('bbox', [0])[1] if item.get('bbox') else 0` — the vertical
bbox coordinate, or `0` when the bbox is absent. -/

structure TextItem where
  text : String
  page_idx : Option Int := none
  pos : Int := 0
deriving DecidableEq, Repr

/-- A chunk dictionary as built by `group_by_dynamic_size`:
`{'items': ..., 'text': ..., 'pages': ..., 'length': ...}`. -/
structure Chunk where
  items : List TextItem
  text : String
  pages : List Int
  length : Nat
deriving DecidableEq, Repr

/-- Sort key `(x.get('page_idx', 0), pos)`. -/
def itemKey (x : TextItem) : Int × Int :=
  (x.page_idx.getD 0, x.pos)

/-- Python tuple comparison of the sort keys (lexicographic). -/
def itemLe (x y : TextItem) : Prop :=
  (itemKey x).1 < (itemKey y).1 ∨
    ((itemKey x).1 = (itemKey y).1 ∧ (itemKey x).2 ≤ (itemKey y).2)

instance : DecidableRel itemLe := fun x y => by
  unfold itemLe
  infer_instance

instance : IsTotal TextItem itemLe :=
  ⟨fun a b => by unfold itemLe; omega⟩

instance : IsTrans TextItem itemLe :=
  ⟨fun a b c => by unfold itemLe; omega⟩

/-- `sorted(text_items, key=...)`: Python sort is stable, as is
insertion sort under a total preorder. -/
def sortItems (text_items : List TextItem) : List TextItem :=
  text_items.insertionSort itemLe

/-- Insertion into the `current_chunk_pages` set, preserving
duplicate-freeness. -/
def pageInsert (ps : List Int) (p : Int) : List Int :=
  if p ∈ ps then ps else ps ++ [p]

/-- Emit the current chunk dict: `'text'` is `'\n'.join(...)`, `'pages'`
is `sorted(current_chunk_pages)`, `'length'` the running char count. -/
def mkChunk (cur : List TextItem) (curLen : Nat) (curPages : List Int) :
    Chunk :=
  { items := cur
    text := String.intercalate "\n" (cur.map (fun i => i.text))
    pages := curPages.insertionSort (fun a b => a ≤ b)
    length := curLen }

/-- The greedy accumulation loop of `group_by_dynamic_size` over the
sorted items, carrying `current_chunk_items`, `current_chunk_text_length`
and `current_chunk_pages`; the final non-empty chunk is flushed at the
end. -/
def groupGo (chunk_size : Nat) :
    List TextItem → List TextItem → Nat → List Int → List Chunk
  | [], cur, curLen, curPages =>
    if cur.isEmpty then [] else [mkChunk cur curLen curPages]
  | item :: rest, cur, curLen, curPages =>
    if 0 < curLen ∧ chunk_size < curLen + item.text.length then
      (if cur.isEmpty then [] else [mkChunk cur curLen curPages]) ++
        groupGo chunk_size rest [item] item.text.length
          (match item.page_idx with
           | some p => [p]
           | none => [])
    else
      groupGo chunk_size rest (cur ++ [item])
        (curLen + item.text.length)
        (match item.page_idx with
         | some p => pageInsert curPages p
         | none => curPages)

/-- `ChunkGrouper.group_by_dynamic_size(text_items)` with target size
`chunk_size`. -/
def group_by_dynamic_size (chunk_size : Nat)
    (text_items : List TextItem) : List Chunk :=
  groupGo chunk_size (sortItems text_items) [] 0 []

/-! ## EntityExtractor

The LLM boundary `self.structured_llm.invoke(prompt)` is an oracle
`String → Except String DocumentAnalysisSchema`: `Except.error` stands
for any raised exception (timeout, malformed response, capability
error).  The prompt template file `prompts/text_entity_extraction.txt`
is not part of the sources; `buildPrompt` models
`get_text_extraction_prompt().format(page_range=..., text_content=...)`
abstractly as an injective packaging of the two arguments, which is all
the claims observe. -/

abbrev ExtractOracle := String → Except String DocumentAnalysisSchema

/-- Modelled from the spec: "build a structured prompt embedding the
chunk's text and page-range label" — the template file is absent from
the sources, so the prompt is modelled as the pair of its two inserted
fields. -/
def buildPrompt (page_range text_content : String) : String :=
  page_range ++ "\n" ++ text_content

/-- `EntityExtractor._format_page_range(pages)`. -/
def formatPageRange : List Int → String
  | [] => "unknown pages"
  | [p] => "page " ++ toString p
  | p :: q :: rest =>
    "pages " ++ toString p ++ "-" ++ toString ((q :: rest).getLast (by simp))

/-- `EntityExtractor.extract_from_chunk`: invoke the oracle on the
prompt; any exception yields an empty `ChunkAnalysisResult` carrying the
chunk index and page range. -/
def extract_from_chunk (oracle : ExtractOracle) (chunk_idx : Nat)
    (text_content page_range : String) : ChunkAnalysisResult :=
  match oracle (buildPrompt page_range text_content) with
  | Except.ok r =>
    { chunk_idx := chunk_idx
      page_range := page_range
      entities := r.entities
      relations := r.relations }
  | Except.error _ =>
    { chunk_idx := chunk_idx, page_range := page_range }

/-- Body of `process_chunk` in `_extract_parallel`: a blank chunk gets
an empty result labelled "empty"; otherwise the chunk is extracted. -/
def processChunk (oracle : ExtractOracle) (idx : Nat) (chunk : Chunk) :
    ChunkAnalysisResult :=
  if pyStrip chunk.text = "" then
    { chunk_idx := idx, page_range := "empty" }
  else
    extract_from_chunk oracle idx chunk.text (formatPageRange chunk.pages)

/-- `EntityExtractor._extract_parallel`: one future per chunk, each
result written into its own index slot, so the returned order is the
chunk order regardless of completion order; no slot stays `None`. -/
def extractParallel (oracle : ExtractOracle) (chunks : List Chunk) :
    List ChunkAnalysisResult :=
  chunks.enum.map (fun p => processChunk oracle p.1 p.2)

/-- `EntityExtractor._extract_sequential`: chunks with blank text are
skipped (`continue`), all others are extracted in order under their
enumeration index. -/
def extractSequential (oracle : ExtractOracle) (chunks : List Chunk) :
    List ChunkAnalysisResult :=
  chunks.enum.foldl
    (fun results p =>
      if pyStrip p.2.text = "" then results
      else
        results ++
          [extract_from_chunk oracle p.1 p.2.text
            (formatPageRange p.2.pages)])
    []

/-- `EntityExtractor.extract_from_chunks(chunks, parallel)`. -/
def extract_from_chunks (oracle : ExtractOracle) (chunks : List Chunk)
    (parallel : Bool) : List ChunkAnalysisResult :=
  if parallel ∧ 1 < chunks.length then extractParallel oracle chunks
  else extractSequential oracle chunks

/-! ## EntityDeduplicator -/

/-- Python truthiness of an optional string: `None` and `""` are falsy. -/
def pyTruthy : Option String → Bool
  | none => false
  | some s => !(s == "")

/-- Length of an optional description, counting `None` as length 0. -/
def optLen : Option String → Nat
  | none => 0
  | some s => s.length

/-- The matching loop inside `deduplicate_entities`: walk the canonical
dict in insertion order, skip canonicals of a different type, and stop
at the first one whose similarity to the candidate name reaches the
threshold. -/
def findMatchLoop (thr : Rat) (e : Entity) :
    List (String × Entity) → Option String
  | [] => none
  | (canonical_name, existing) :: rest =>
    if existing.type ≠ e.type then findMatchLoop thr e rest
    else if thr ≤ calculate_similarity e.name canonical_name then
      some canonical_name
    else findMatchLoop thr e rest

/-- `EntityDeduplicator._merge_entities(target, source)`: replace the
description when the source one is truthy and the target one is falsy
or strictly shorter; append source attributes whose name is not among
the target's original attribute names. -/
def mergeEntities (target source : Entity) : Entity :=
  let description :=
    if pyTruthy source.description ∧
        (¬ pyTruthy target.description ∨
          optLen target.description < optLen source.description) then
      source.description
    else target.description
  let existing_attr_names := target.attributes.map (fun a => a.name)
  let attributes :=
    source.attributes.foldl
      (fun acc a =>
        if a.name ∈ existing_attr_names then acc else acc ++ [a])
      target.attributes
  { target with description := description, attributes := attributes }

/-- Merge the candidate into the canonical entity stored under key `n`
(in-place mutation of the dict value). -/
def mergeAt (d : List (String × Entity)) (n : String) (e : Entity) :
    List (String × Entity) :=
  d.map (fun p => if p.1 = n then (p.1, mergeEntities p.2 e) else p)

/-- One iteration of the candidate loop of `deduplicate_entities`. -/
def processEntity (thr : Rat) (d : List (String × Entity)) (e : Entity) :
    List (String × Entity) :=
  match findMatchLoop thr e d with
  | some n => mergeAt d n e
  | none => dictInsert d e.name e

/-- Keys of the `defaultdict` grouping by type, in first-occurrence
order. -/
def groupKeys (es : List Entity) : List String :=
  es.foldl (fun ks e => if e.type ∈ ks then ks else ks ++ [e.type]) []

/-- The order in which `deduplicate_entities` visits candidates: the
type groups in first-occurrence order, each group in input order. -/
def regroup (es : List Entity) : List Entity :=
  ((groupKeys es).map (fun t => es.filter (fun e => e.type == t))).flatten

/-- `EntityDeduplicator.deduplicate_entities(entities)` at threshold
`thr`. -/
def deduplicate_entities (thr : Rat) (es : List Entity) :
    List (String × Entity) :=
  (regroup es).foldl (processEntity thr) []

/-- `EntityDeduplicator._find_canonical_name(entity_name, entity_map)`:
exact dict lookup first, else the best fuzzy match at or above the
threshold (strictly improving, so the earliest key wins ties). -/
def find_canonical_name (thr : Rat) (entity_name : String)
    (entity_map : List (String × Entity)) : Option String :=
  if dictContains entity_map entity_name then some entity_name
  else
    (entity_map.foldl
      (fun st p =>
        let s := calculate_similarity entity_name p.1
        if thr ≤ s ∧ st.2 < s then (some p.1, s) else st)
      ((none : Option String), (0 : Rat))).1

/-- `EntityDeduplicator.normalize_relations(relations, entity_map)`:
rewrite both endpoints to canonical names, dropping relations with an
unresolvable endpoint. -/
def normalize_relations (thr : Rat) (relations : List Relation)
    (entity_map : List (String × Entity)) : List Relation :=
  relations.foldl
    (fun normalized r =>
      match find_canonical_name thr r.source_entity entity_map,
          find_canonical_name thr r.target_entity entity_map with
      | some s, some t =>
        normalized ++
          [{ r with source_entity := s, target_entity := t }]
      | _, _ => normalized)
    []

/-! ## OntologyAligner -/

/-- `AlignedEntity` pydantic model (all structured fields). -/
structure AlignedEntity where
  name : String
  core_type : String
  alt_names : List String := []
  description : Option String := none
  legal_name : Option String := none
  founded_date : Option String := none
  stage : Option String := none
  industry : Option String := none
  location : Option String := none
  website : Option String := none
  education : List String := []
  positions : List String := []
  expertise : List String := []
  application_domain : Option String := none
  technical_characteristics : List String := []
  maturity_level : Option String := none
  version : Option String := none
  features : List String := []
  source_entities : List String := []
  confidence : Rat := 1
  provenance : List String := []
deriving DecidableEq, Repr

/-- `AlignedRelation` pydantic model. -/
structure AlignedRelation where
  source_entity : String
  target_entity : String
  core_relation_type : String
  description : Option String := none
  confidence : Rat := 1
  source_relations : List String := []
  provenance : List String := []
deriving DecidableEq, Repr

/-- Build a Python dict from a literal list of key-value pairs: a
repeated key keeps its first position but takes the later value. -/
def pyDictOfList (l : List (String × String)) : List (String × String) :=
  l.foldl (fun d p => dictInsert d p.1 p.2) []

/-- The `ENTITY_TYPE_MAPPING` dict literal, in source order, including
the duplicated keys `platform`, `system`, `software` and `tool` (first
mapped to Technology, later to Product). -/
def entityTypePairs : List (String × String) :=
  [("company", "Company"), ("organization", "Company"),
   ("startup", "Company"), ("firm", "Company"),
   ("corporation", "Company"), ("enterprise", "Company"),
   ("institution", "Company"), ("investor", "Company"),
   ("investment_firm", "Company"), ("fund", "Company"),
   ("university", "Company"), ("research_lab", "Company"),
   ("person", "Person"), ("founder", "Person"), ("ceo", "Person"),
   ("executive", "Person"), ("researcher", "Person"),
   ("scientist", "Person"), ("engineer", "Person"),
   ("expert", "Person"), ("author", "Person"),
   ("team_member", "Person"),
   ("technology", "Technology"), ("technique", "Technology"),
   ("algorithm", "Technology"), ("method", "Technology"),
   ("framework", "Technology"), ("platform", "Technology"),
   ("system", "Technology"), ("model", "Technology"),
   ("tool", "Technology"), ("software", "Technology"),
   ("hardware", "Technology"), ("device", "Technology"),
   ("material", "Technology"), ("component", "Technology"),
   ("product", "Product"), ("service", "Product"),
   ("platform", "Product"), ("application", "Product"),
   ("app", "Product"), ("software", "Product"),
   ("system", "Product"), ("solution", "Product"),
   ("tool", "Product"),
   ("industry", "TagConcept"), ("domain", "TagConcept"),
   ("field", "TagConcept"), ("sector", "TagConcept"),
   ("category", "TagConcept"), ("tag", "TagConcept"),
   ("tag_concept", "TagConcept"), ("concept", "TagConcept"),
   ("topic", "TagConcept"), ("area", "TagConcept"),
   ("market", "TagConcept"), ("segment", "TagConcept"),
   ("industry_segment", "TagConcept"),
   ("application_scenario", "TagConcept"),
   ("event", "Event"), ("news", "Event"), ("announcement", "Event"),
   ("financing", "Event"), ("investment", "Event"),
   ("acquisition", "Event"), ("merger", "Event"),
   ("partnership", "Event"), ("collaboration", "Event"),
   ("launch", "Event"), ("release", "Event"),
   ("signal", "Signal"), ("indicator", "Signal"),
   ("metric", "Signal"), ("trend", "Signal"),
   ("patent", "Other"), ("paper", "Other"), ("report", "Other"),
   ("dataset", "Other"), ("standard", "Other"), ("location", "Other")]

/-- `OntologyAligner.ENTITY_TYPE_MAPPING` as the evaluated dict. -/
def ENTITY_TYPE_MAPPING : List (String × String) :=
  pyDictOfList entityTypePairs

/-- The `RELATION_TYPE_MAPPING` dict literal, in source order. -/
def relationTypePairs : List (String × String) :=
  [("founded_by", "founded_by"), ("created_by", "founded_by"),
   ("established_by", "founded_by"), ("led_by", "founded_by"),
   ("invested_by", "invested_by"), ("funded_by", "invested_by"),
   ("backed_by", "invested_by"), ("financed_by", "invested_by"),
   ("invested_in", "invested_by"),
   ("works_at", "works_at"), ("employed_by", "works_at"),
   ("member_of", "works_at"), ("serves_at", "works_at"),
   ("uses_technology", "uses_technology"), ("uses", "uses_technology"),
   ("adopts", "uses_technology"), ("implements", "uses_technology"),
   ("applies", "uses_technology"), ("leverages", "uses_technology"),
   ("in_segment", "in_segment"), ("in_industry", "in_segment"),
   ("in_field", "in_segment"), ("operates_in", "in_segment"),
   ("focuses_on", "in_segment"), ("targets", "in_segment"),
   ("competes_with", "competes_with"), ("rival_of", "competes_with"),
   ("competitor_of", "competes_with"),
   ("partners_with", "partners_with"),
   ("collaborates_with", "partners_with"),
   ("cooperates_with", "partners_with"),
   ("works_with", "partners_with"),
   ("researches", "researches"), ("studies", "researches"),
   ("investigates", "researches"), ("develops", "researches"),
   ("educated_at", "educated_at"), ("studied_at", "educated_at"),
   ("graduated_from", "educated_at"),
   ("part_of", "part_of"), ("subset_of", "part_of"),
   ("component_of", "part_of"), ("belongs_to", "part_of"),
   ("related_to", "related_to"), ("associated_with", "related_to"),
   ("connected_to", "related_to"),
   ("applied_in", "applied_in"), ("used_in", "applied_in"),
   ("involves", "involves"), ("includes", "involves"),
   ("affects", "involves"),
   ("located_in", "located_in"), ("based_in", "located_in"),
   ("headquartered_in", "located_in")]

/-- `OntologyAligner.RELATION_TYPE_MAPPING` as the evaluated dict. -/
def RELATION_TYPE_MAPPING : List (String × String) :=
  pyDictOfList relationTypePairs

/-- Python substring test `sub in s` on strings. -/
def strContains (s sub : String) : Bool :=
  s.toList.tails.any (fun t => sub.toList.isPrefixOf t)

/-- Exact dict lookup. -/
def dictGet (d : List (String × String)) (k : String) : Option String :=
  (d.find? (fun p => p.1 == k)).map (fun p => p.2)

/-- `OntologyAligner._map_entity_type(raw_type)`: lower-case and strip,
try exact lookup, then the first key related by substring containment
in either direction, else the `Other` fallback. -/
def map_entity_type (raw_type : String) : String :=
  let r := pyStrip (pyLower raw_type)
  match dictGet ENTITY_TYPE_MAPPING r with
  | some core => core
  | none =>
    match ENTITY_TYPE_MAPPING.find?
        (fun p => strContains r p.1 || strContains p.1 r) with
    | some p => p.2
    | none => "Other"

/-- `OntologyAligner._map_relation_type(raw_relation)`: lower-case,
strip, replace spaces by underscores, then the same two-tier lookup
with the non-filtering `other` fallback. -/
def map_relation_type (raw_relation : String) : String :=
  let r := pyUnderscore (pyStrip (pyLower raw_relation))
  match dictGet RELATION_TYPE_MAPPING r with
  | some core => core
  | none =>
    match RELATION_TYPE_MAPPING.find?
        (fun p => strContains r p.1 || strContains p.1 r) with
    | some p => p.2
    | none => "other"

/-- The `attr_dict` comprehension `{attr.name: attr.value for ...}`. -/
def attrDict (attrs : List EntityAttribute) : List (String × String) :=
  attrs.foldl (fun d a => dictInsert d a.name a.value) []

/-- Python `x or y` on optional strings (`None` and `""` are falsy). -/
def pyOr (a b : Option String) : Option String :=
  match a with
  | some s => if s = "" then b else some s
  | none => b

/-- `[x] if x and isinstance(x, str) else []`. -/
def optToList : Option String → List String
  | none => []
  | some s => if s = "" then [] else [s]

/-- `OntologyAligner._extract_structured_fields` merged into the
`AlignedEntity(...)` construction of `align_entities`. -/
def mkAlignedEntity (name core_type : String) (e : Entity) :
    AlignedEntity :=
  let ad := attrDict e.attributes
  let base : AlignedEntity :=
    { name := name
      core_type := core_type
      description := e.description
      source_entities := [name] }
  if core_type = "Company" then
    { base with
      legal_name := dictGet ad "legal_name"
      founded_date := pyOr (dictGet ad "founded_date")
        (dictGet ad "founding_date")
      stage := pyOr (dictGet ad "stage") (dictGet ad "funding_stage")
      industry := dictGet ad "industry"
      location := pyOr (dictGet ad "location") (dictGet ad "region")
      website := dictGet ad "website" }
  else if core_type = "Person" then
    { base with
      education := optToList (pyOr (dictGet ad "education")
        (dictGet ad "education_background"))
      positions := optToList (pyOr (dictGet ad "position")
        (dictGet ad "role"))
      expertise := optToList (dictGet ad "expertise") }
  else if core_type = "Technology" then
    { base with
      application_domain := pyOr (dictGet ad "application_domain")
        (dictGet ad "domain")
      technical_characteristics :=
        optToList (pyOr (dictGet ad "technical_characteristics")
          (dictGet ad "characteristics"))
      maturity_level := pyOr (dictGet ad "maturity_level")
        (dictGet ad "maturity") }
  else if core_type = "Product" then
    { base with
      version := dictGet ad "version"
      features := optToList (dictGet ad "features")
      application_domain := dictGet ad "application_domain" }
  else base

/-- `OntologyAligner.align_entities(entities)`: skip entities mapping
to the `Other` core type, align the rest under their canonical name. -/
def align_entities (entities : List (String × Entity)) :
    List (String × AlignedEntity) :=
  entities.foldl
    (fun aligned p =>
      let core_type := map_entity_type p.2.type
      if core_type = "Other" then aligned
      else dictInsert aligned p.1 (mkAlignedEntity p.1 core_type p.2))
    []

/-- `OntologyAligner.align_relations(relations, raw_entities,
aligned_entities)`: keep a relation only when both endpoints survive in
`aligned_entities` (the raw map is an unused lookup parameter in the
source as well). -/
def align_relations (relations : List Relation)
    (raw_entities : List (String × Entity))
    (aligned_entities : List (String × AlignedEntity)) :
    List AlignedRelation :=
  relations.foldl
    (fun acc r =>
      if ¬ dictContains aligned_entities r.source_entity ∨
          ¬ dictContains aligned_entities r.target_entity then acc
      else
        acc ++
          [{ source_entity := r.source_entity
             target_entity := r.target_entity
             core_relation_type := map_relation_type r.relation_type
             description := r.description
             confidence := r.confidence
             source_relations := [r.relation_type]
             provenance := [] }])
    []

/-! ## Derived measures and invariant predicates -/

/-- Total text length of a fragment list (the quantity tracked by
`current_chunk_text_length`). -/
def sumLen (l : List TextItem) : Nat :=
  (l.map (fun i => i.text.length)).sum

/-- The default `similarity_threshold` of `EntityDeduplicator`
(`0.85`). -/
def similarity_threshold : Rat := mkRat 85 100

/-- Entries of the canonical dict are keyed by their entity's name. -/
def KeyName (d : List (String × Entity)) : Prop :=
  ∀ p ∈ d, p.1 = p.2.name

/-- A later canonical's name is below the similarity threshold against
every earlier canonical of the same type. -/
def BelowRel (thr : Rat) (p q : String × Entity) : Prop :=
  q.2.type = p.2.type → calculate_similarity q.2.name p.1 < thr

/-! ## Concrete instances used by counterexamples and witnesses -/

/-- A fragment with empty text. -/
def fragEmpty : TextItem := { text := "", page_idx := some 0, pos := 0 }

/-- A fragment whose text is longer than the target size 5. -/
def fragLong : TextItem :=
  { text := "abcdefg", page_idx := some 0, pos := 1 }

/-- The single chunk produced from `[fragEmpty, fragLong]` at target
size 5. -/
def overChunk : Chunk := mkChunk [fragEmpty, fragLong] 7 [0]

/-- An oracle whose extraction call always raises. -/
def oracleFail : ExtractOracle := fun _ => Except.error "error"

/-- A chunk with blank text. -/
def blankChunk : Chunk :=
  { items := [], text := "", pages := [], length := 0 }

/-- A chunk with non-blank text. -/
def textChunk : Chunk :=
  { items := [], text := "hi", pages := [1], length := 2 }

/-- Scenario A entity `"Acme Corp"` of type `"company"`. -/
def acmeLower : Entity := { name := "Acme Corp", type := "company" }

/-- Scenario A entity `"ACME Corp"` of type `"company"`. -/
def acmeUpper : Entity := { name := "ACME Corp", type := "company" }

/-- First canonical for the best-match counterexample: similarity to
`entX5.name` is 18/21 (at threshold). -/
def entA5 : Entity := { name := "abcdefghixx", type := "t" }

/-- Second canonical for the best-match counterexample: similarity to
`entX5.name` is 20/21 (the strictly best match). -/
def entB5 : Entity := { name := "abcdefghijk", type := "t" }

/-- Candidate carrying an attribute, merged by the code into `entA5`
(the first match) rather than `entB5` (the best match). -/
def entX5 : Entity :=
  { name := "abcdefghij", type := "t",
    attributes := [{ name := "src", value := "x" }] }

/-- Idempotence counterexample, first entity (type `"t1"`). -/
def entA6 : Entity :=
  { name := "abcdefghijklmnopqr01234", type := "t1" }

/-- Idempotence counterexample, second entity: the `SequenceMatcher`
ratio of `entC6.name` against this name is 38/47 < 0.85, but 40/47
≥ 0.85 in the reverse argument order. -/
def entB6 : Entity :=
  { name := "abcdefghijklmnopqr561730", type := "t2" }

/-- Idempotence counterexample, third entity: same name as `entA6` but
type `"t2"`, so it overwrites the `"t1"` canonical in place. -/
def entC6 : Entity :=
  { name := "abcdefghijklmnopqr01234", type := "t2" }

/-- Distinct-name entities for the idempotence witness. -/
def entW1 : Entity := { name := "ab", type := "t" }

/-- Distinct-name entities for the idempotence witness. -/
def entW2 : Entity := { name := "cd", type := "t" }

/-- Same-name entities of different types for the overwrite claim. -/
def ent9a : Entity :=
  { name := "X", type := "t1", description := some "first entity" }

/-- The later same-name entity that replaces `ent9a` in the dict. -/
def ent9b : Entity := { name := "X", type := "t2" }

/-- Entity map for the referential-integrity witness. -/
def emap7 : List (String × Entity) := [("Acme Corp", acmeLower)]

/-- Relation whose source resolves fuzzily and target exactly. -/
def rel7 : Relation :=
  { source_entity := "ACME Corp", target_entity := "Acme Corp",
    relation_type := "related_to" }

/-- Raw entity of type `"patent"` (maps to the `Other` core type). -/
def patentEnt : Entity := { name := "P1", type := "patent" }

/-- Raw entity of type `"company"` (survives alignment). -/
def companyEnt : Entity := { name := "C1", type := "company" }

/-- Entity map mixing a filtered and a surviving entity. -/
def entities8 : List (String × Entity) :=
  [("P1", patentEnt), ("C1", companyEnt)]

/-- A relation between two surviving aligned entities. -/
def rel8 : Relation :=
  { source_entity := "C1", target_entity := "C1",
    relation_type := "partners_with" }

/-! ## Shared helper lemmas -/

theorem strLength_pos {s : String} (h : s ≠ "") : 0 < s.length := by
  cases s with
  | mk data =>
    cases data with
    | nil => exact absurd rfl h
    | cons c cs => simp [String.length]

theorem mergeEntities_name (target source : Entity) :
    (mergeEntities target source).name = target.name := rfl

theorem mergeEntities_type (target source : Entity) :
    (mergeEntities target source).type = target.type := rfl

theorem dictContains_of_mem_fst {α : Type} {d : List (String × α)}
    {k : String} (h : k ∈ d.map Prod.fst) : dictContains d k = true := by
  rw [dictContains, List.any_eq_true]
  obtain ⟨p, hp, rfl⟩ := List.mem_map.mp h
  exact ⟨p, hp, by simp⟩

theorem dictInsert_of_fresh {d : List (String × Entity)} {k : String}
    {v : Entity} (h : ∀ p ∈ d, p.1 ≠ k) :
    dictInsert d k v = d ++ [(k, v)] := by
  rw [dictInsert, if_neg]
  simp only [List.any_eq_true, beq_iff_eq, not_exists, not_and]
  exact fun p hp => h p hp

theorem mem_dictInsert {α : Type} {d : List (String × α)} {k : String}
    {v : α} {p : String × α} (hp : p ∈ dictInsert d k v) :
    p ∈ d ∨ p = (k, v) := by
  rw [dictInsert] at hp
  by_cases h : d.any (fun q => q.1 == k)
  · rw [if_pos h] at hp
    obtain ⟨q, hq, rfl⟩ := List.mem_map.mp hp
    by_cases hqk : q.1 == k
    · rw [if_pos hqk]
      exact Or.inr rfl
    · rw [if_neg hqk]
      exact Or.inl hq
  · rw [if_neg h] at hp
    rcases List.mem_append.mp hp with hp | hp
    · exact Or.inl hp
    · exact Or.inr (List.mem_singleton.mp hp)

theorem mem_fst_dictInsert {α : Type} {d : List (String × α)}
    {k k2 : String} {v : α} (h : k2 ∈ (dictInsert d k v).map Prod.fst) :
    k2 ∈ d.map Prod.fst ∨ k2 = k := by
  obtain ⟨p, hp, rfl⟩ := List.mem_map.mp h
  rcases mem_dictInsert hp with hp | rfl
  · exact Or.inl (List.mem_map_of_mem _ hp)
  · exact Or.inr rfl

/-! ## C1: chunk coverage -/

theorem groupGo_flatten (sz : Nat) (pending : List TextItem) :
    ∀ cur curLen curPages,
      ((groupGo sz pending cur curLen curPages).map Chunk.items).flatten
        = cur ++ pending := by
  induction pending with
  | nil =>
    intro cur curLen curPages
    by_cases h : cur.isEmpty
    · simp [groupGo, h, List.isEmpty_iff.mp h]
    · simp [groupGo, h, mkChunk]
  | cons item rest ih =>
    intro cur curLen curPages
    by_cases hcond : 0 < curLen ∧ sz < curLen + item.text.length
    · by_cases hemp : cur.isEmpty
      · simp [groupGo, hcond, hemp, ih, List.isEmpty_iff.mp hemp]
      · simp [groupGo, hcond, hemp, mkChunk, ih]
    · simp [groupGo, hcond, ih]

/-- C1: `group_by_dynamic_size` partitions its input exactly — the
concatenation of all chunks' fragment lists equals the input sorted by
`(page_index, position)`; that sorted list is a permutation of the
input (each fragment exactly once, no drops, no duplicates) and is
sorted (no reordering); an empty input yields an empty chunk list. -/
theorem chunkGrouper_coverage (chunk_size : Nat)
    (fragments : List TextItem) :
    ((group_by_dynamic_size chunk_size fragments).map
        Chunk.items).flatten = sortItems fragments
    ∧ (sortItems fragments).Perm fragments
    ∧ (sortItems fragments).Pairwise itemLe
    ∧ group_by_dynamic_size chunk_size [] = [] := by
  refine ⟨?_, ?_, ?_, ?_⟩
  · simpa [group_by_dynamic_size] using
      groupGo_flatten chunk_size (sortItems fragments) [] 0 []
  · exact List.perm_insertionSort itemLe fragments
  · exact List.sorted_insertionSort itemLe fragments
  · rfl

/-! ## C2: chunk size bound -/

theorem sumLen_append (l : List TextItem) (x : TextItem) :
    sumLen (l ++ [x]) = sumLen l + x.text.length := by
  simp [sumLen]

theorem sumLen_eq_zero {l : List TextItem} (h : sumLen l = 0) :
    ∀ i ∈ l, i.text.length = 0 := by
  intro i hi
  exact List.sum_eq_zero_iff.mp h _ (List.mem_map_of_mem _ hi)

theorem groupGo_good (sz : Nat) (pending : List TextItem) :
    ∀ cur curLen curPages,
      curLen = sumLen cur →
      (curLen ≤ sz ∨ ∀ i ∈ cur.dropLast, i.text.length = 0) →
      ∀ c ∈ groupGo sz pending cur curLen curPages,
        c.length = sumLen c.items ∧
        (c.length ≤ sz ∨ ∀ i ∈ c.items.dropLast, i.text.length = 0) := by
  induction pending with
  | nil =>
    intro cur curLen curPages hsum hinv c hc
    by_cases h : cur.isEmpty
    · simp [groupGo, h] at hc
    · simp only [groupGo, h] at hc
      rw [if_neg (by simp [h])] at hc
      rw [List.mem_singleton] at hc
      subst hc
      exact ⟨hsum, hinv⟩
  | cons item rest ih =>
    intro cur curLen curPages hsum hinv c hc
    by_cases hcond : 0 < curLen ∧ sz < curLen + item.text.length
    · rw [groupGo, if_pos hcond] at hc
      rcases List.mem_append.mp hc with hc | hc
      · by_cases h : cur.isEmpty
        · simp [h] at hc
        · rw [if_neg (by simp [h]), List.mem_singleton] at hc
          subst hc
          exact ⟨hsum, hinv⟩
      · refine ih [item] item.text.length _ (by simp [sumLen]) ?_ c hc
        right
        simp
    · rw [groupGo, if_neg hcond] at hc
      refine ih (cur ++ [item]) (curLen + item.text.length) _
        (by rw [sumLen_append, hsum]) ?_ c hc
      push_neg at hcond
      rcases Nat.eq_zero_or_pos curLen with h0 | hpos
      · right
        rw [List.dropLast_concat]
        subst hsum
        exact sumLen_eq_zero h0
      · exact Or.inl (hcond hpos)

/-- C2 counterexample: at target size 5, the fragments `fragEmpty`
(empty text) and `fragLong` (7 characters) land in one two-fragment
chunk of recorded length 7 > 5, because the overflow check requires
`current_chunk_text_length > 0`; so a multi-fragment chunk can exceed
the target size, and an oversized fragment need not sit alone in its
chunk. -/
theorem chunkGrouper_size_bound_cex :
    ¬ (∀ c ∈ group_by_dynamic_size 5 [fragEmpty, fragLong],
        1 < c.items.length → c.length ≤ 5) := by
  decide

/-- C2 amended: a chunk's recorded `length` is the sum of its
fragments' text lengths, and every chunk either fits the target size or
consists of zero-length fragments followed by one final fragment
carrying all the length; consequently a fragment longer than the
target size is never split, is the last fragment of its chunk, and all
fragments before it in that chunk have empty text. -/
theorem chunkGrouper_size_bound (chunk_size : Nat)
    (fragments : List TextItem) (c : Chunk)
    (hc : c ∈ group_by_dynamic_size chunk_size fragments) :
    c.length = sumLen c.items
    ∧ (c.length ≤ chunk_size ∨
        ∀ i ∈ c.items.dropLast, i.text.length = 0)
    ∧ (∀ f ∈ c.items, chunk_size < f.text.length →
        c.items.getLast? = some f ∧
          ∀ i ∈ c.items.dropLast, i.text.length = 0) := by
  obtain ⟨hlen, hgood⟩ :=
    groupGo_good chunk_size (sortItems fragments) [] 0 [] rfl
      (Or.inl (Nat.zero_le _)) c hc
  refine ⟨hlen, hgood, ?_⟩
  intro f hf hbig
  have hne : c.items ≠ [] := List.ne_nil_of_mem hf
  have hsum_lt : chunk_size < sumLen c.items := by
    have hle : f.text.length ≤ sumLen c.items := by
      have := List.single_le_sum
        (l := c.items.map (fun i => i.text.length))
        (by intro x _; exact Nat.zero_le x) f.text.length
        (List.mem_map_of_mem _ hf)
      simpa [sumLen] using this
    omega
  have hempty : ∀ i ∈ c.items.dropLast, i.text.length = 0 := by
    rcases hgood with h | h
    · omega
    · exact h
  have hlast : f = c.items.getLast hne := by
    have hsplit : c.items.dropLast ++ [c.items.getLast hne] = c.items :=
      List.dropLast_append_getLast hne
    rcases List.mem_append.mp (hsplit ▸ hf) with h | h
    · have := hempty f h
      omega
    · simpa using h
  exact ⟨hlast ▸ (List.getLast?_eq_getLast _ hne).symm ▸ rfl, hempty⟩

theorem chunkGrouper_size_bound_witness :
    overChunk ∈ group_by_dynamic_size 5 [fragEmpty, fragLong]
    ∧ (overChunk.length = sumLen overChunk.items
      ∧ (overChunk.length ≤ 5 ∨
          ∀ i ∈ overChunk.items.dropLast, i.text.length = 0)
      ∧ (∀ f ∈ overChunk.items, 5 < f.text.length →
          overChunk.items.getLast? = some f ∧
            ∀ i ∈ overChunk.items.dropLast, i.text.length = 0)) :=
  ⟨by decide,
    chunkGrouper_size_bound 5 [fragEmpty, fragLong] overChunk (by decide)⟩

/-! ## C3: extraction result length and index correspondence -/

theorem extract_from_chunk_idx (oracle : ExtractOracle) (i : Nat)
    (t pr : String) :
    (extract_from_chunk oracle i t pr).chunk_idx = i := by
  unfold extract_from_chunk
  cases oracle (buildPrompt pr t) <;> rfl

theorem processChunk_idx (oracle : ExtractOracle) (i : Nat) (c : Chunk) :
    (processChunk oracle i c).chunk_idx = i := by
  unfold processChunk
  split
  · rfl
  · exact extract_from_chunk_idx oracle i c.text (formatPageRange c.pages)

theorem seqFold_map_idx (oracle : ExtractOracle) :
    ∀ (l : List (Nat × Chunk)) (acc : List ChunkAnalysisResult),
      ((l.foldl
        (fun results p =>
          if pyStrip p.2.text = "" then results
          else
            results ++
              [extract_from_chunk oracle p.1 p.2.text
                (formatPageRange p.2.pages)])
        acc).map (fun r => r.chunk_idx))
      = acc.map (fun r => r.chunk_idx) ++
          (l.filter (fun p => !(pyStrip p.2.text == ""))).map Prod.fst := by
  intro l
  induction l with
  | nil => intro acc; simp
  | cons p l ih =>
    intro acc
    by_cases hb : pyStrip p.2.text = ""
    · simp [List.foldl_cons, hb, ih]
    · simp [List.foldl_cons, hb, ih, extract_from_chunk_idx]

/-- C3 counterexample: in sequential mode a chunk with blank text is
skipped, so on `[blankChunk, textChunk]` the result list has length 1
instead of 2 and its only element carries `chunk_idx` 1, refuting the
claimed same-length index correspondence for the sequential mode. -/
theorem extractor_index_cex :
    (extract_from_chunks oracleFail [blankChunk, textChunk] false).length
        ≠ [blankChunk, textChunk].length
    ∧ (extract_from_chunks oracleFail [blankChunk, textChunk]
        false).map (fun r => r.chunk_idx) = [1] := by
  refine ⟨by decide, by decide⟩

/-- C3 amended: in parallel mode (more than one chunk) the result list
has one entry per chunk carrying exactly the chunk indices 0, 1, ... in
order, independent of completion order; in sequential mode blank-text
chunks are skipped and the result lists exactly the non-blank chunks in
order, each under its original enumeration index. -/
theorem extractor_index_correspondence (oracle : ExtractOracle)
    (chunks : List Chunk) :
    (1 < chunks.length →
      (extract_from_chunks oracle chunks true).map (fun r => r.chunk_idx)
        = List.range chunks.length)
    ∧ (extract_from_chunks oracle chunks false).map
        (fun r => r.chunk_idx)
      = (chunks.enum.filter
          (fun p => !(pyStrip p.2.text == ""))).map Prod.fst := by
  constructor
  · intro hlen
    rw [extract_from_chunks, if_pos (by simpa using hlen)]
    rw [extractParallel, List.map_map]
    have hcomp :
        ((fun r => r.chunk_idx) ∘ fun p => processChunk oracle p.1 p.2)
          = (Prod.fst : Nat × Chunk → Nat) := by
      funext p
      exact processChunk_idx oracle p.1 p.2
    rw [hcomp, List.enum_map_fst]
  · rw [extract_from_chunks, if_neg (by simp)]
    exact seqFold_map_idx oracle chunks.enum []

theorem extractor_index_witness :
    1 < [blankChunk, textChunk].length
    ∧ (extract_from_chunks oracleFail [blankChunk, textChunk]
        true).map (fun r => r.chunk_idx) = List.range 2 :=
  ⟨by decide,
    (extractor_index_correspondence oracleFail
      [blankChunk, textChunk]).1 (by decide)⟩

/-! ## C4: failure isolation -/

/-- C4: when the oracle call for a chunk raises, `extract_from_chunk`
returns the empty `ChunkAnalysisResult` carrying that chunk's index and
page range instead of propagating the exception; and in the parallel
fan-out, the result in slot `i` is a function of chunk `i` alone, so a
failing chunk leaves every sibling slot unchanged. -/
theorem extractor_failure_isolation (oracle : ExtractOracle) (idx : Nat)
    (text_content page_range err : String)
    (h : oracle (buildPrompt page_range text_content) =
      Except.error err) :
    extract_from_chunk oracle idx text_content page_range =
      { chunk_idx := idx, page_range := page_range,
        entities := [], relations := [] }
    ∧ ∀ (chunks : List Chunk) (i : Nat) (c : Chunk),
        chunks.get? i = some c →
        (extractParallel oracle chunks).get? i =
          some (processChunk oracle i c) := by
  constructor
  · unfold extract_from_chunk
    rw [h]
  · intro chunks i c hget
    rw [extractParallel]
    rw [List.get?_eq_getElem?, List.getElem?_map]
    have henum : chunks.enum[i]? = some (i, c) := by
      rw [List.getElem?_enum]
      rw [List.get?_eq_getElem?] at hget
      simp [hget]
    rw [henum]
    rfl

theorem extractor_failure_isolation_witness :
    oracleFail (buildPrompt "page 1" "hi") = Except.error "error"
    ∧ extract_from_chunk oracleFail 0 "hi" "page 1" =
        { chunk_idx := 0, page_range := "page 1",
          entities := [], relations := [] }
    ∧ (extractParallel oracleFail [blankChunk, textChunk]).get? 1 =
        some (processChunk oracleFail 1 textChunk) :=
  ⟨rfl,
    (extractor_failure_isolation oracleFail 0 "hi" "page 1"
      "error" rfl).1,
    (extractor_failure_isolation oracleFail 0 "hi" "page 1"
      "error" rfl).2 [blankChunk, textChunk] 1 textChunk rfl⟩

/-! ## C5: deduplication merge policy -/

theorem findMatchLoop_eq_find (thr : Rat) (e : Entity) :
    ∀ d : List (String × Entity),
      findMatchLoop thr e d =
        (d.find? (fun p => p.2.type == e.type &&
          decide (thr ≤ calculate_similarity e.name p.1))).map
          Prod.fst := by
  intro d
  induction d with
  | nil => rfl
  | cons p rest ih =>
    obtain ⟨k, ex⟩ := p
    by_cases ht : ex.type = e.type
    · by_cases hs : thr ≤ calculate_similarity e.name k
      · rw [findMatchLoop, if_neg (by simp [ht]), if_pos hs]
        rw [List.find?_cons_of_pos _ (by simp [ht, hs])]
        rfl
      · rw [findMatchLoop, if_neg (by simp [ht]), if_neg hs]
        rw [List.find?_cons_of_neg _ (by simp [ht, hs])]
        exact ih
    · rw [findMatchLoop, if_pos (by simp [ht])]
      rw [List.find?_cons_of_neg _ (by simp [ht])]
      exact ih

theorem mergeEntities_description (target source : Entity) :
    (mergeEntities target source).description =
      (if optLen target.description < optLen source.description then
        source.description
      else target.description) := by
  show (if pyTruthy source.description ∧
      (¬ pyTruthy target.description ∨
        optLen target.description < optLen source.description) then
      source.description
    else target.description) = _
  rcases hs : source.description with _ | s
  · simp [pyTruthy, optLen]
  · rcases ht : target.description with _ | t
    · by_cases h0 : s = ""
      · simp [pyTruthy, optLen, h0]
      · simp [pyTruthy, optLen, h0, strLength_pos h0]
    · by_cases h0 : s = ""
      · simp [pyTruthy, optLen, h0]
      · by_cases ht0 : t = ""
        · simp [pyTruthy, optLen, h0, ht0, strLength_pos h0]
        · by_cases hlt : t.length < s.length
          · simp [pyTruthy, optLen, h0, ht0, hlt]
          · simp [pyTruthy, optLen, h0, ht0, hlt]

theorem attrFold_eq_filter (names : List String) :
    ∀ (src acc : List EntityAttribute),
      src.foldl
        (fun acc a => if a.name ∈ names then acc else acc ++ [a]) acc
      = acc ++ src.filter (fun a => decide (a.name ∉ names)) := by
  intro src
  induction src with
  | nil => intro acc; simp
  | cons a src ih =>
    intro acc
    by_cases h : a.name ∈ names
    · simp [List.foldl_cons, h, ih]
    · simp [List.foldl_cons, h, ih]

theorem mergeEntities_attributes (target source : Entity) :
    (mergeEntities target source).attributes =
      target.attributes ++
        source.attributes.filter
          (fun a =>
            decide (a.name ∉ target.attributes.map
              (fun b => b.name))) := by
  show source.attributes.foldl _ target.attributes = _
  exact attrFold_eq_filter _ source.attributes target.attributes

/-- C5 counterexample: with canonicals `entA5` then `entB5` of the same
type, the candidate `entX5` is strictly more similar to `entB5`
(20/21) than to `entA5` (18/21 = 6/7 ≥ 0.85), yet the loop merges it
into `entA5`, the first canonical at or above the threshold in
insertion order, so `entA5` receives the candidate attribute and the
best match `entB5` stays untouched — refuting "merging into the best
such match". -/
theorem dedup_merge_policy_cex :
    calculate_similarity entX5.name entA5.name <
        calculate_similarity entX5.name entB5.name
    ∧ similarity_threshold ≤ calculate_similarity entX5.name entA5.name
    ∧ deduplicate_entities similarity_threshold [entA5, entB5, entX5] =
        [("abcdefghixx",
          { name := "abcdefghixx", type := "t",
            attributes := [{ name := "src", value := "x" }] }),
         ("abcdefghijk", entB5)] := by
  refine ⟨by decide, by decide, by decide⟩

/-- C5 amended: a candidate merges only into a canonical of the
identical type whose case-insensitive similarity to the candidate name
reaches the threshold, namely the FIRST such canonical in insertion
order (`List.find?`); the merge keeps the canonical name and type,
replaces the description exactly when the candidate description is
strictly longer (counting absent or empty as length 0), and appends
exactly the candidate attributes whose name is not already present
on the canonical; with no qualifying match the candidate is stored
under its own name; in particular `"Acme Corp"`/`"ACME Corp"` of type
`"company"` merge into one canonical entity at threshold 0.85. -/
theorem dedup_merge_policy (thr : Rat) (e target source : Entity)
    (d : List (String × Entity)) :
    findMatchLoop thr e d =
      (d.find? (fun p => p.2.type == e.type &&
        decide (thr ≤ calculate_similarity e.name p.1))).map Prod.fst
    ∧ processEntity thr d e =
        (match findMatchLoop thr e d with
         | some n => mergeAt d n e
         | none => dictInsert d e.name e)
    ∧ (mergeEntities target source).name = target.name
    ∧ (mergeEntities target source).type = target.type
    ∧ (mergeEntities target source).description =
        (if optLen target.description < optLen source.description then
          source.description
        else target.description)
    ∧ (mergeEntities target source).attributes =
        target.attributes ++
          source.attributes.filter
            (fun a =>
              decide (a.name ∉ target.attributes.map (fun b => b.name)))
    ∧ similarity_threshold = 0.85
    ∧ deduplicate_entities similarity_threshold [acmeLower, acmeUpper] =
        [("Acme Corp", acmeLower)] :=
  ⟨findMatchLoop_eq_find thr e d, rfl,
    mergeEntities_name target source, mergeEntities_type target source,
    mergeEntities_description target source,
    mergeEntities_attributes target source,
    by norm_num [similarity_threshold, mkRat, Rat.normalize],
    by decide⟩

/-! ## C6: deduplication idempotence -/

theorem findMatchLoop_none_iff (thr : Rat) (e : Entity) :
    ∀ d : List (String × Entity),
      findMatchLoop thr e d = none ↔
        ∀ p ∈ d, p.2.type = e.type →
          calculate_similarity e.name p.1 < thr := by
  intro d
  induction d with
  | nil => exact iff_of_true rfl (by simp)
  | cons p rest ih =>
    obtain ⟨k, ex⟩ := p
    by_cases ht : ex.type = e.type
    · by_cases hs : thr ≤ calculate_similarity e.name k
      · rw [findMatchLoop, if_neg (by simp [ht]), if_pos hs]
        constructor
        · intro h
          simp at h
        · intro hall
          exact absurd (hall (k, ex) (List.mem_cons_self _ _) ht)
            (not_lt.mpr hs)
      · rw [findMatchLoop, if_neg (by simp [ht]), if_neg hs]
        rw [ih]
        constructor
        · intro hall q hq htq
          rcases List.mem_cons.mp hq with rfl | hq
          · exact lt_of_not_le hs
          · exact hall q hq htq
        · intro hall q hq htq
          exact hall q (List.mem_cons_of_mem _ hq) htq
    · rw [findMatchLoop, if_pos (by simp [ht]), ih]
      constructor
      · intro hall q hq htq
        rcases List.mem_cons.mp hq with rfl | hq
        · exact absurd htq ht
        · exact hall q hq htq
      · intro hall q hq htq
        exact hall q (List.mem_cons_of_mem _ hq) htq

theorem mergeAt_map_fst (d : List (String × Entity)) (n : String)
    (e : Entity) : (mergeAt d n e).map Prod.fst = d.map Prod.fst := by
  rw [mergeAt, List.map_map]
  refine List.map_congr_left (fun p _ => ?_)
  by_cases h : p.1 = n <;> simp [h]

theorem mergeAt_entry {d : List (String × Entity)} {n : String}
    {e : Entity} {p : String × Entity} (hp : p ∈ mergeAt d n e) :
    ∃ q ∈ d, p.1 = q.1 ∧ p.2.name = q.2.name ∧ p.2.type = q.2.type := by
  rw [mergeAt] at hp
  obtain ⟨q, hq, rfl⟩ := List.mem_map.mp hp
  by_cases h : q.1 = n <;>
    exact ⟨q, hq, by simp [h, mergeEntities_name, mergeEntities_type]⟩

theorem dedupFold_inv (thr : Rat) :
    ∀ (es : List Entity) (d : List (String × Entity)),
      (es.map Entity.name).Nodup →
      (∀ e ∈ es, ∀ p ∈ d, p.1 ≠ e.name) →
      KeyName d → (d.map Prod.fst).Nodup →
      d.Pairwise (BelowRel thr) →
      KeyName (es.foldl (processEntity thr) d)
      ∧ ((es.foldl (processEntity thr) d).map Prod.fst).Nodup
      ∧ (es.foldl (processEntity thr) d).Pairwise (BelowRel thr) := by
  intro es
  induction es with
  | nil => intro d _ _ h1 h2 h3; exact ⟨h1, h2, h3⟩
  | cons e es ih =>
    intro d hnd hfresh hkey hnodup hbelow
    rw [List.foldl_cons]
    rcases hmatch : findMatchLoop thr e d with _ | n
    · have hfr : ∀ p ∈ d, p.1 ≠ e.name :=
        fun p hp => hfresh e (List.mem_cons_self _ _) p hp
      rw [processEntity, hmatch, dictInsert_of_fresh hfr]
      refine ih (d ++ [(e.name, e)]) (by
          have hx := hnd
          rw [List.map_cons, List.nodup_cons] at hx
          exact hx.2) ?_ ?_ ?_ ?_
      · intro e2 he2 p hp
        rcases List.mem_append.mp hp with hp | hp
        · exact hfresh e2 (List.mem_cons_of_mem _ he2) p hp
        · rcases List.mem_singleton.mp hp with rfl
          have hx : e.name ∉ es.map Entity.name := by
            have hy := hnd
            rw [List.map_cons, List.nodup_cons] at hy
            exact hy.1
          simp only [ne_eq]
          intro hEq
          exact hx (hEq ▸ List.mem_map_of_mem Entity.name he2)
      · intro p hp
        rcases List.mem_append.mp hp with hp | hp
        · exact hkey p hp
        · rcases List.mem_singleton.mp hp with rfl
          rfl
      · rw [List.map_append, List.nodup_append]
        refine ⟨hnodup, by simp, ?_⟩
        intro k hk
        simp only [List.map_cons, List.map_nil, List.mem_singleton]
        obtain ⟨p, hp, rfl⟩ := List.mem_map.mp hk
        exact fun hEq => (hfr p hp) hEq
      · rw [List.pairwise_append]
        refine ⟨hbelow, List.pairwise_singleton _ _, ?_⟩
        intro p hp q hq
        rcases List.mem_singleton.mp hq with rfl
        intro htype
        exact (findMatchLoop_none_iff thr e d).mp hmatch p hp htype.symm
    · rw [processEntity, hmatch]
      refine ih (mergeAt d n e) (by
          have hx := hnd
          rw [List.map_cons, List.nodup_cons] at hx
          exact hx.2) ?_ ?_ ?_ ?_
      · intro e2 he2 p hp
        obtain ⟨q, hq, hfst, _, _⟩ := mergeAt_entry hp
        rw [hfst]
        exact hfresh e2 (List.mem_cons_of_mem _ he2) q hq
      · intro p hp
        obtain ⟨q, hq, hfst, hname, _⟩ := mergeAt_entry hp
        rw [hfst, hname]
        exact hkey q hq
      · rw [mergeAt_map_fst]
        exact hnodup
      · rw [mergeAt]
        rw [List.pairwise_map]
        refine hbelow.imp_of_mem ?_
        intro p q _ _ hpq
        by_cases hpn : p.1 = n <;> by_cases hqn : q.1 = n <;>
          simp only [hpn, hqn, if_pos, if_neg, BelowRel,
            mergeEntities_name, mergeEntities_type] at hpq ⊢ <;>
          simpa [BelowRel, mergeEntities_name, mergeEntities_type,
            hpn, hqn] using hpq

theorem gkFold_nodup :
    ∀ (es : List Entity) (ks : List String), ks.Nodup →
      (es.foldl
        (fun ks e => if e.type ∈ ks then ks else ks ++ [e.type])
        ks).Nodup := by
  intro es
  induction es with
  | nil => intro ks h; exact h
  | cons e es ih =>
    intro ks h
    rw [List.foldl_cons]
    by_cases hmem : e.type ∈ ks
    · rw [if_pos hmem]; exact ih ks h
    · rw [if_neg hmem]
      refine ih _ ?_
      rw [List.nodup_append]
      refine ⟨h, List.nodup_singleton _, ?_⟩
      intro k hk hkmem
      rw [List.mem_singleton] at hkmem
      exact hmem (hkmem ▸ hk)

theorem gkFold_mem :
    ∀ (es : List Entity) (ks : List String) (t : String),
      (t ∈ ks ∨ t ∈ es.map Entity.type) →
      t ∈ es.foldl
        (fun ks e => if e.type ∈ ks then ks else ks ++ [e.type]) ks := by
  intro es
  induction es with
  | nil =>
    intro ks t h
    rcases h with h | h
    · exact h
    · simp at h
  | cons e es ih =>
    intro ks t h
    rw [List.foldl_cons]
    by_cases hmem : e.type ∈ ks
    · rw [if_pos hmem]
      refine ih ks t ?_
      rcases h with h | h
      · exact Or.inl h
      · rcases List.mem_map.mp h with ⟨f, hf, rfl⟩
        rcases List.mem_cons.mp hf with rfl | hf
        · exact Or.inl hmem
        · exact Or.inr (List.mem_map_of_mem _ hf)
    · rw [if_neg hmem]
      refine ih _ t ?_
      rcases h with h | h
      · exact Or.inl (List.mem_append_left _ h)
      · rcases List.mem_map.mp h with ⟨f, hf, rfl⟩
        rcases List.mem_cons.mp hf with rfl | hf
        · exact Or.inl (List.mem_append_right _ (by simp))
        · exact Or.inr (List.mem_map_of_mem _ hf)

theorem groupKeys_nodup (es : List Entity) : (groupKeys es).Nodup :=
  gkFold_nodup es [] List.nodup_nil

theorem type_mem_groupKeys {es : List Entity} {e : Entity}
    (h : e ∈ es) : e.type ∈ groupKeys es :=
  gkFold_mem es [] e.type (Or.inr (List.mem_map_of_mem _ h))

theorem sum_count_single (c : Nat) (t : String) :
    ∀ ts : List String, ts.Nodup →
      (ts.map (fun u => if t = u then c else 0)).sum =
        if t ∈ ts then c else 0 := by
  intro ts
  induction ts with
  | nil => intro _; simp
  | cons u ts ih =>
    intro h
    rw [List.nodup_cons] at h
    rw [List.map_cons, List.sum_cons, ih h.2]
    by_cases hEq : t = u
    · subst hEq
      simp [h.1]
    · simp [hEq]

theorem count_filter_type (x : Entity) (t : String) (es : List Entity) :
    List.count x (es.filter (fun e => e.type == t)) =
      if x.type = t then List.count x es else 0 := by
  by_cases h : x.type = t
  · rw [if_pos h, List.count_filter (by simp [h])]
  · rw [if_neg h, List.count_eq_zero]
    intro hmem
    rw [List.mem_filter] at hmem
    exact h (by simpa using hmem.2)

theorem regroup_perm (es : List Entity) : (regroup es).Perm es := by
  rw [List.perm_iff_count]
  intro x
  rw [regroup, List.count_flatten, List.map_map]
  have hcongr :
      (List.map ((fun l => List.count x l) ∘
          fun t => es.filter (fun e => e.type == t)) (groupKeys es))
        = (groupKeys es).map (fun t => if x.type = t then
            List.count x es else 0) :=
    List.map_congr_left (fun t _ => count_filter_type x t es)
  rw [hcongr, sum_count_single _ _ _ (groupKeys_nodup es)]
  by_cases hmem : x.type ∈ groupKeys es
  · rw [if_pos hmem]
  · rw [if_neg hmem, Eq.comm, List.count_eq_zero]
    intro hx
    exact hmem (type_mem_groupKeys hx)

theorem pairwise_regroup {R : Entity → Entity → Prop}
    (hcross : ∀ f e, f.type ≠ e.type → R f e)
    {vals : List Entity} (h : vals.Pairwise R) :
    (regroup vals).Pairwise R := by
  rw [regroup, List.pairwise_flatten]
  constructor
  · intro l hl
    rcases List.mem_map.mp hl with ⟨t, _, rfl⟩
    exact h.filter _
  · rw [List.pairwise_map]
    refine (groupKeys_nodup vals).imp_of_mem ?_
    intro t1 t2 _ _ hne x hx y hy
    rw [List.mem_filter] at hx hy
    refine hcross x y ?_
    rw [show x.type = t1 by simpa using hx.2,
      show y.type = t2 by simpa using hy.2]
    exact hne

theorem rerunFold (thr : Rat) :
    ∀ (vs : List Entity) (d0 : List (String × Entity)),
      (vs.map Entity.name).Nodup →
      (∀ e ∈ vs, ∀ p ∈ d0, p.1 ≠ e.name) →
      (∀ e ∈ vs, ∀ p ∈ d0, p.2.type = e.type →
          calculate_similarity e.name p.1 < thr) →
      vs.Pairwise (fun f e => e.type = f.type →
          calculate_similarity e.name f.name < thr) →
      vs.foldl (processEntity thr) d0 =
        d0 ++ vs.map (fun e => (e.name, e)) := by
  intro vs
  induction vs with
  | nil => intro d0 _ _ _ _; simp
  | cons e vs ih =>
    intro d0 hnd hfresh hcross hpw
    rw [List.foldl_cons, processEntity,
      (findMatchLoop_none_iff thr e d0).mpr
        (fun p hp => hcross e (List.mem_cons_self _ _) p hp),
      dictInsert_of_fresh
        (fun p hp => hfresh e (List.mem_cons_self _ _) p hp)]
    rw [List.map_cons] at hnd
    rw [List.nodup_cons] at hnd
    rw [List.pairwise_cons] at hpw
    rw [ih (d0 ++ [(e.name, e)]) hnd.2 ?_ ?_ hpw.2]
    · simp
    · intro e2 he2 p hp
      rcases List.mem_append.mp hp with hp | hp
      · exact hfresh e2 (List.mem_cons_of_mem _ he2) p hp
      · rcases List.mem_singleton.mp hp with rfl
        simp only [ne_eq]
        intro hEq
        exact hnd.1 (hEq ▸ List.mem_map_of_mem Entity.name he2)
    · intro e2 he2 p hp
      rcases List.mem_append.mp hp with hp | hp
      · exact hcross e2 (List.mem_cons_of_mem _ he2) p hp
      · rcases List.mem_singleton.mp hp with rfl
        intro htype
        exact hpw.1 e2 he2 htype.symm

theorem keyName_map_eq {d : List (String × Entity)} (h : KeyName d) :
    d.map (fun p => (p.2.name, p.2)) = d := by
  induction d with
  | nil => rfl
  | cons p d ih =>
    rw [List.map_cons, ih (fun q hq => h q (List.mem_cons_of_mem _ hq))]
    rw [← h p (List.mem_cons_self _ _)]

/-- C6 counterexample: on `[entA6, entB6, entC6]` (the third entity
shares its name with the first but has the second's type) the first run
yields two canonicals, the candidate `entC6` overwriting the `"t1"`
entry in place after comparing 38/47 < 0.85 against `entB6`; rerunning
on the output compares the names in the opposite argument order, where
the `SequenceMatcher` ratio is 40/47 ≥ 0.85, so the two canonicals
merge and the rerun output differs — deduplication is not idempotent. -/
theorem dedup_idempotence_cex :
    calculate_similarity entC6.name entB6.name < similarity_threshold
    ∧ similarity_threshold ≤ calculate_similarity entB6.name entC6.name
    ∧ deduplicate_entities similarity_threshold
        ((deduplicate_entities similarity_threshold
          [entA6, entB6, entC6]).map Prod.snd)
      ≠ deduplicate_entities similarity_threshold
          [entA6, entB6, entC6] := by
  refine ⟨by decide, by decide, by decide⟩

/-- C6 amended: for every input whose entities' names are pairwise
distinct (so no canonical entry is ever overwritten by a same-name
candidate of another type), rerunning deduplication on its own output
performs no merges and returns the same canonical entities under the
same names, up to the regrouping permutation of the entry order. -/
theorem dedup_idempotence_distinct (thr : Rat) (es : List Entity)
    (h : (es.map Entity.name).Nodup) :
    (deduplicate_entities thr
        ((deduplicate_entities thr es).map Prod.snd)).Perm
      (deduplicate_entities thr es) := by
  have hperm0 : (regroup es).Perm es := regroup_perm es
  have hnd0 : ((regroup es).map Entity.name).Nodup :=
    ((hperm0.map Entity.name).nodup_iff).mpr h
  obtain ⟨hkey, hnodup, hbelow⟩ :=
    dedupFold_inv thr (regroup es) [] hnd0
      (fun e _ p hp => absurd hp (List.not_mem_nil p))
      (fun p hp => absurd hp (List.not_mem_nil p))
      (by simp) List.Pairwise.nil
  set d := deduplicate_entities thr es with hd
  have hdfold : (regroup es).foldl (processEntity thr) [] = d := rfl
  rw [hdfold] at hkey hnodup hbelow
  set vals := d.map Prod.snd with hvals
  have hvnames : vals.map Entity.name = d.map Prod.fst := by
    rw [hvals, List.map_map]
    exact List.map_congr_left (fun p hp => (hkey p hp).symm)
  have hvnd : (vals.map Entity.name).Nodup := hvnames ▸ hnodup
  have hvpw : vals.Pairwise (fun f e => e.type = f.type →
      calculate_similarity e.name f.name < thr) := by
    rw [hvals, List.pairwise_map]
    refine hbelow.imp_of_mem ?_
    intro p q hp _ hpq htype
    rw [← hkey p hp]
    exact hpq htype
  have hre :
      deduplicate_entities thr vals =
        (regroup vals).map (fun e => (e.name, e)) := by
    rw [deduplicate_entities]
    rw [rerunFold thr (regroup vals) [] ?_
      (fun e _ p hp => absurd hp (List.not_mem_nil p))
      (fun e _ p hp => absurd hp (List.not_mem_nil p)) ?_]
    · simp
    · exact ((regroup_perm vals).map Entity.name).nodup_iff.mpr hvnd
    · refine pairwise_regroup ?_ hvpw
      intro f e hne htype
      exact absurd htype.symm hne
  rw [hre]
  have hmapperm : ((regroup vals).map (fun e => (e.name, e))).Perm
      (vals.map (fun e => (e.name, e))) :=
    (regroup_perm vals).map _
  refine hmapperm.trans ?_
  have hmap : vals.map (fun e => (e.name, e)) = d := by
    rw [hvals, List.map_map]
    exact keyName_map_eq hkey
  rw [hmap]

theorem dedup_idempotence_witness :
    ([entW1, entW2].map Entity.name).Nodup
    ∧ (deduplicate_entities similarity_threshold
        ((deduplicate_entities similarity_threshold
          [entW1, entW2]).map Prod.snd)).Perm
        (deduplicate_entities similarity_threshold [entW1, entW2]) :=
  ⟨by decide,
    dedup_idempotence_distinct similarity_threshold [entW1, entW2]
      (by decide)⟩

/-! ## C7: relation referential integrity -/

theorem foldBest_mem (thr : Rat) (name : String) :
    ∀ (l : List (String × Entity)) (st : Option String × Rat)
      (n : String),
      (l.foldl
        (fun st p =>
          let s := calculate_similarity name p.1
          if thr ≤ s ∧ st.2 < s then (some p.1, s) else st) st).1
        = some n →
      st.1 = some n ∨ n ∈ l.map Prod.fst := by
  intro l
  induction l with
  | nil => intro st n h; exact Or.inl h
  | cons p l ih =>
    intro st n h
    rw [List.foldl_cons] at h
    rcases ih _ n h with hst | hmem
    · dsimp only at hst
      by_cases hc : thr ≤ calculate_similarity name p.1 ∧
          st.2 < calculate_similarity name p.1
      · rw [if_pos hc] at hst
        simp only [Option.some.injEq] at hst
        exact Or.inr (by simp [← hst])
      · rw [if_neg hc] at hst
        exact Or.inl hst
    · exact Or.inr (List.mem_cons_of_mem _ hmem)

theorem find_canonical_name_mem (thr : Rat) (name : String)
    (emap : List (String × Entity)) (n : String)
    (h : find_canonical_name thr name emap = some n) :
    dictContains emap n = true := by
  rw [find_canonical_name] at h
  by_cases hd : dictContains emap name
  · rw [if_pos hd] at h
    rcases Option.some.injEq _ _ ▸ h with rfl
    exact hd
  · rw [if_neg hd] at h
    rcases foldBest_mem thr name emap (none, 0) n h with hst | hmem
    · exact absurd hst (by simp)
    · exact dictContains_of_mem_fst hmem

theorem normFold_integrity (thr : Rat)
    (emap : List (String × Entity)) :
    ∀ (rels : List Relation) (acc : List Relation),
      (∀ r ∈ acc, dictContains emap r.source_entity = true ∧
        dictContains emap r.target_entity = true) →
      ∀ r ∈ rels.foldl
        (fun normalized r =>
          match find_canonical_name thr r.source_entity emap,
              find_canonical_name thr r.target_entity emap with
          | some s, some t =>
            normalized ++
              [{ r with source_entity := s, target_entity := t }]
          | _, _ => normalized) acc,
        dictContains emap r.source_entity = true ∧
          dictContains emap r.target_entity = true := by
  intro rels
  induction rels with
  | nil => intro acc hacc r hr; exact hacc r hr
  | cons r0 rels ih =>
    intro acc hacc r hr
    rw [List.foldl_cons] at hr
    refine ih _ ?_ r hr
    intro r1 hr1
    rcases hs : find_canonical_name thr r0.source_entity emap
        with _ | sc <;>
      rcases ht : find_canonical_name thr r0.target_entity emap
        with _ | tc <;>
      simp only [hs, ht] at hr1
    · exact hacc r1 hr1
    · exact hacc r1 hr1
    · exact hacc r1 hr1
    · rcases List.mem_append.mp hr1 with h1 | h1
      · exact hacc r1 h1
      · rcases List.mem_singleton.mp h1 with rfl
        exact ⟨find_canonical_name_mem thr r0.source_entity emap sc hs,
          find_canonical_name_mem thr r0.target_entity emap tc ht⟩

/-- C7: every relation surviving `normalize_relations` has both
endpoints equal to keys of the deduplicated entity map (an endpoint
resolves either by exact lookup — a key in the map resolves to itself —
or to a canonical key met by the fuzzy search, and a relation with an
unresolvable endpoint is dropped without error, so nothing else reaches
the output). -/
theorem relation_referential_integrity (thr : Rat)
    (relations : List Relation) (entity_map : List (String × Entity))
    (r : Relation)
    (hr : r ∈ normalize_relations thr relations entity_map) :
    dictContains entity_map r.source_entity = true
    ∧ dictContains entity_map r.target_entity = true
    ∧ ∀ n, dictContains entity_map n = true →
        find_canonical_name thr n entity_map = some n := by
  have h := normFold_integrity thr entity_map relations []
    (fun r1 hr1 => absurd hr1 (List.not_mem_nil r1)) r hr
  exact ⟨h.1, h.2, fun n hn => by rw [find_canonical_name, if_pos hn]⟩

theorem relation_referential_integrity_witness :
    ({ source_entity := "Acme Corp", target_entity := "Acme Corp",
        relation_type := "related_to" } : Relation) ∈
      normalize_relations similarity_threshold [rel7] emap7
    ∧ dictContains emap7 "Acme Corp" = true :=
  ⟨by decide,
    (relation_referential_integrity similarity_threshold [rel7] emap7
      { source_entity := "Acme Corp", target_entity := "Acme Corp",
        relation_type := "related_to" } (by decide)).1⟩

/-! ## C8: ontology alignment filtering -/

theorem mkAlignedEntity_core_type (name ct : String) (e : Entity) :
    (mkAlignedEntity name ct e).core_type = ct := by
  rw [mkAlignedEntity]
  split_ifs <;> rfl

theorem alignFold_no_other :
    ∀ (entities : List (String × Entity))
      (acc : List (String × AlignedEntity)),
      (∀ q ∈ acc, q.2.core_type ≠ "Other") →
      ∀ q ∈ entities.foldl
        (fun aligned p =>
          let core_type := map_entity_type p.2.type
          if core_type = "Other" then aligned
          else dictInsert aligned p.1
            (mkAlignedEntity p.1 core_type p.2)) acc,
        q.2.core_type ≠ "Other" := by
  intro entities
  induction entities with
  | nil => intro acc hacc q hq; exact hacc q hq
  | cons p entities ih =>
    intro acc hacc q hq
    rw [List.foldl_cons] at hq
    refine ih _ ?_ q hq
    intro q1 hq1
    dsimp only at hq1
    by_cases hct : map_entity_type p.2.type = "Other"
    · rw [if_pos hct] at hq1
      exact hacc q1 hq1
    · rw [if_neg hct] at hq1
      rcases mem_dictInsert hq1 with h1 | rfl
      · exact hacc q1 h1
      · simpa [mkAlignedEntity_core_type] using hct

theorem alignFold_keys :
    ∀ (entities : List (String × Entity))
      (acc : List (String × AlignedEntity)) (k : String),
      k ∈ (entities.foldl
        (fun aligned p =>
          let core_type := map_entity_type p.2.type
          if core_type = "Other" then aligned
          else dictInsert aligned p.1
            (mkAlignedEntity p.1 core_type p.2)) acc).map Prod.fst →
      k ∈ acc.map Prod.fst ∨
        ∃ p ∈ entities, p.1 = k ∧
          map_entity_type p.2.type ≠ "Other" := by
  intro entities
  induction entities with
  | nil => intro acc k h; exact Or.inl h
  | cons p entities ih =>
    intro acc k h
    rw [List.foldl_cons] at h
    rcases ih _ k h with h1 | ⟨p1, hp1, hk, hother⟩
    · dsimp only at h1
      by_cases hct : map_entity_type p.2.type = "Other"
      · rw [if_pos hct] at h1
        exact Or.inl h1
      · rw [if_neg hct] at h1
        rcases mem_fst_dictInsert h1 with h2 | rfl
        · exact Or.inl h2
        · exact Or.inr ⟨p, List.mem_cons_self _ _, rfl, hct⟩
    · exact Or.inr ⟨p1, List.mem_cons_of_mem _ hp1, hk, hother⟩

/-- C8: no aligned entity carries the `Other` core type; under distinct
raw keys, an entity whose raw type maps to `Other` (such as
`"patent"`) contributes no key to `aligned_entities`; and every aligned
relation has both endpoints present as keys of `aligned_entities`. -/
theorem alignment_filtering (entities raw : List (String × Entity))
    (relations : List Relation)
    (aligned : List (String × AlignedEntity)) :
    (∀ q ∈ align_entities entities, q.2.core_type ≠ "Other")
    ∧ map_entity_type "patent" = "Other"
    ∧ ((entities.map Prod.fst).Nodup →
        ∀ p ∈ entities, map_entity_type p.2.type = "Other" →
          dictContains (align_entities entities) p.1 = false)
    ∧ (∀ ar ∈ align_relations relations raw aligned,
        dictContains aligned ar.source_entity = true ∧
          dictContains aligned ar.target_entity = true) := by
  refine ⟨?_, by decide, ?_, ?_⟩
  · intro q hq
    exact alignFold_no_other entities []
      (fun q1 hq1 => absurd hq1 (List.not_mem_nil q1)) q hq
  · intro hnd p hp hother
    rw [Bool.eq_false_iff]
    intro hcontains
    rw [dictContains, List.any_eq_true] at hcontains
    obtain ⟨q, hq, hqk⟩ := hcontains
    rw [beq_iff_eq] at hqk
    have hk : p.1 ∈ (align_entities entities).map Prod.fst := by
      rw [← hqk]
      exact List.mem_map_of_mem _ hq
    rcases alignFold_keys entities [] p.1 hk with h1 |
      ⟨p1, hp1, hk1, hother1⟩
    · simp at h1
    · have hpp : p1 = p := List.inj_on_of_nodup_map hnd hp1 hp hk1
      exact hother1 (hpp ▸ hother)
  · suffices hfold :
        ∀ (rels : List Relation) (acc : List AlignedRelation),
          (∀ ar ∈ acc, dictContains aligned ar.source_entity = true ∧
            dictContains aligned ar.target_entity = true) →
          ∀ ar ∈ rels.foldl
            (fun acc r =>
              if ¬ dictContains aligned r.source_entity ∨
                  ¬ dictContains aligned r.target_entity then acc
              else
                acc ++
                  [{ source_entity := r.source_entity
                     target_entity := r.target_entity
                     core_relation_type :=
                       map_relation_type r.relation_type
                     description := r.description
                     confidence := r.confidence
                     source_relations := [r.relation_type]
                     provenance := [] }]) acc,
            dictContains aligned ar.source_entity = true ∧
              dictContains aligned ar.target_entity = true by
      intro ar har
      exact hfold relations []
        (fun ar1 har1 => absurd har1 (List.not_mem_nil ar1)) ar har
    intro rels
    induction rels with
    | nil => intro acc hacc ar har; exact hacc ar har
    | cons r rels ih =>
      intro acc hacc ar har
      rw [List.foldl_cons] at har
      refine ih _ ?_ ar har
      intro ar1 har1
      by_cases hc : ¬ dictContains aligned r.source_entity ∨
          ¬ dictContains aligned r.target_entity
      · rw [if_pos hc] at har1
        exact hacc ar1 har1
      · rw [if_neg hc] at har1
        rcases List.mem_append.mp har1 with h1 | h1
        · exact hacc ar1 h1
        · rcases List.mem_singleton.mp h1 with rfl
          push_neg at hc
          exact hc

theorem alignment_filtering_witness :
    (entities8.map Prod.fst).Nodup
    ∧ ("P1", patentEnt) ∈ entities8
    ∧ map_entity_type patentEnt.type = "Other"
    ∧ dictContains (align_entities entities8) "P1" = false
    ∧ dictContains (align_entities entities8) "C1" = true :=
  ⟨by decide, by decide, by decide,
    (alignment_filtering entities8 [] [] []).2.2.1 (by decide)
      ("P1", patentEnt) (by decide) (by decide),
    by decide⟩

/-! ## C9: same-name cross-type overwrite -/

/-- C9: on `[ent9a, ent9b]` (same name `"X"`, types `"t1"` and `"t2"`)
the unmatched second candidate is stored as `deduplicated["X"]` and
replaces the first canonical in the returned map, silently discarding
it and its description — the result holds only `ent9b`. -/
theorem dedup_same_name_overwrite :
    deduplicate_entities similarity_threshold [ent9a, ent9b] =
      [("X", ent9b)]
    ∧ ent9b ≠ ent9a
    ∧ ent9a.description = some "first entity"
    ∧ ent9b.description = none := by
  refine ⟨by decide, by decide, rfl, rfl⟩

/-! ## C10: duplicated ENTITY_TYPE_MAPPING keys -/

/-- C10: the duplicated dict-literal keys `platform`, `system`,
`software` and `tool` take the later `Product` value (the first
occurrence keeps only the key position), so `_map_entity_type` sends
each of these four raw types to `Product` and never to `Technology`. -/
theorem entity_type_mapping_product :
    map_entity_type "platform" = "Product"
    ∧ map_entity_type "system" = "Product"
    ∧ map_entity_type "software" = "Product"
    ∧ map_entity_type "tool" = "Product"
    ∧ dictGet ENTITY_TYPE_MAPPING "platform" = some "Product"
    ∧ ("Product" : String) ≠ "Technology" := by
  refine ⟨by decide, by decide, by decide, by decide, by decide,
    by decide⟩

end TextPipeline
